import Mathlib

/-!
# A shallow embedding of `tabs.js` (domsson/tabs.js)

The repository ships two implementations of the same widget in `src/tabs.js`:
a prototype-style one (`function Tabs(o)` and `Tabs.prototype.*`) and a
class-style one (`class Tabs`).  Both are modelled here; definitions without a
suffix follow the prototype implementation, definitions suffixed `_c` follow
the class implementation where the two differ in behaviour.

Modelling conventions:
* JS strings are Lean `String`; character-level operations (`split`, `join`)
  are implemented by structural recursion over `String.data` so that they are
  executable and kernel-reducible.
* The fragment separator (`frag_sep`, a one-character string in the source,
  called "the separator character" throughout its documentation) is a `Char`.
* A JS value that may be `null` is an `Option`.  CSS class options for which
  the source only tests truthiness (`c && ele.classList.add(c)`) are `String`,
  with `""` playing the role of every falsy value.
* `element.classList` is a duplicate-free `List String`; `add` appends when
  absent, `remove` filters.
* The `this.tabs` object is an insertion-ordered association list
  `List (String × Entry)`; JS property update (`this.tabs[frag] = ...`)
  replaces in place when the key exists and appends otherwise.
-/

/-- Strict `Option` alternative: `oor a b` is `a` when `a` is `some`, else `b`.
(`x || y` / `x !== null ? x : y` patterns from the source.) -/
def oor {α : Type} : Option α → Option α → Option α
  | some a, _ => some a
  | none, b => b

/-! ## Character-level split and join (JS `String.prototype.split` / `Array.prototype.join`
with a one-character separator) -/

/-- Split a character list at every occurrence of `sep`, returning the first
chunk and the remaining chunks.  `splitChar sep l = (w, ws)` means the JS
result array is `w :: ws`. -/
def splitChar (sep : Char) : List Char → List Char × List (List Char)
  | [] => ([], [])
  | c :: cs =>
    let r := splitChar sep cs
    if c = sep then ([], r.1 :: r.2) else (c :: r.1, r.2)

/-- Full result of splitting: always a non-empty list of chunks, like JS
`str.split(sep)` (so `"".split(sep) = [""]`). -/
def splitCharList (sep : Char) (l : List Char) : List (List Char) :=
  (splitChar sep l).1 :: (splitChar sep l).2

/-- Join chunks with the separator (JS `arr.join(sep)` at character level). -/
def joinChar (sep : Char) : List (List Char) → List Char
  | [] => []
  | [x] => x
  | x :: y :: t => x ++ sep :: joinChar sep (y :: t)

/-- JS `s.split(sep)` for a one-character separator `sep`. -/
def jsSplit (sep : Char) (s : String) : List String :=
  (splitCharList sep s.data).map String.mk

/-- JS `arr.join(sep)` for a one-character separator `sep`. -/
def jsJoin (sep : Char) (xs : List String) : String :=
  String.mk (joinChar sep (xs.map String.data))

/-! ## `Tabs.prototype.frag` and `Tabs.prototype.frags` -/

/-- Model of `Tabs.prototype.frag`: split the given string (or the document URL) on
`"#"` and return the component at index 1 when there is one, `""` otherwise.
```js
var url = (str) ? str.split("#") : document.URL.split("#");
return (url.length > 1) ? url[1] : "";
```
(The class version `frag(str=document.URL)` computes the same value.) -/
def frag (str : String) : String :=
  let url := jsSplit '#' str
  if url.length > 1 then url.getD 1 "" else ""

/-- Model of `Tabs.prototype.frags`: split a fragment string on the configured
separator; a falsy (empty) input yields the empty array.
```js
return (frag) ? frag.split(this.frag_sep) : [];
``` -/
def frags (frag_sep : Char) (f : String) : List String :=
  if f = "" then [] else jsSplit frag_sep f

-- concrete sanity checks, mirroring the examples in the source comments
example : frag "http://example.com#chapter-1" = "chapter-1" := by decide
example : frag "no-hash-here" = "" := by decide
example : frags ':' "hello:world" = ["hello", "world"] := by decide
example : frags ':' "" = [] := by decide
example : frag "u#a#b" = "a" := by decide

/-! ## Data model -/

/-- The configuration fields of a constructed prototype-version `Tabs`
instance (`this.attr`, ..., `this.frag_sep`).  Fields whose only use in the
source is a truthiness test are `String` with `""` for "unset". -/
structure Config where
  attr : String
  name : Option String
  btn_select : Option String
  btn_active : String
  tab_class : String
  tab_active : String
  tab_hidden : String
  set_frags : Bool
  frag_sep : Char
deriving Repr, DecidableEq

/-- A candidate tab-navigation element, as seen by `find_tnav`:
`attrVal` is the value of its `cfg.attr` attribute (`none` when the attribute
is absent), `hasSet` says whether it carries the `"<attr>-set"` attribute. -/
structure TElem where
  attrVal : Option String
  hasSet : Bool
deriving Repr, DecidableEq

/-- A candidate tab button.  `href` is the result of `find_href` on the
element (`none` when no anchor/`href` was found); `classes` is its class
list. -/
structure Button where
  href : Option String
  classes : List String
deriving Repr, DecidableEq

/-- One value of the `this.tabs` map: the class lists of the bound button
and tab content element.  (The stored click-handler reference `evt` carries
no observable state and is not modelled.) -/
structure Entry where
  btnClasses : List String
  tabClasses : List String
deriving Repr, DecidableEq

/-- The mutable state of one `Tabs` instance together with the piece of
browser state it mutates (the document URL): `cfg` are the option fields,
`tnav`/`tabs`/`curr` are `this.tnav`/`this.tabs`/`this.curr`, and `url` is
`document.URL`. -/
structure TabsState where
  cfg : Config
  tnav : Option TElem
  tabs : List (String × Entry)
  curr : Option String
  url : String
deriving Repr, DecidableEq

/-! ## Class-list helpers (`add_class`, `rem_class`) -/

/-- Model of `Tabs.prototype.add_class`: `c && ele.classList.add(c)` — no-op on a
falsy class, otherwise `classList.add` (append if not present). -/
def add_class (l : List String) (c : String) : List String :=
  if c = "" then l else if c ∈ l then l else l ++ [c]

/-- Model of `Tabs.prototype.rem_class`: `c && ele.classList.remove(c)` — no-op on a
falsy class, otherwise `classList.remove`. -/
def rem_class (l : List String) (c : String) : List String :=
  if c = "" then l else l.filter (· ≠ c)

/-! ## `show`, `hide`, `hide_all` -/

/-- Effect of `Tabs.prototype.show` on the entry of the shown key. -/
def showEntry (cfg : Config) (e : Entry) : Entry :=
  { btnClasses := add_class e.btnClasses cfg.btn_active
    tabClasses := rem_class (add_class e.tabClasses cfg.tab_active) cfg.tab_hidden }

/-- Effect of `Tabs.prototype.hide` on the entry of the hidden key. -/
def hideEntry (cfg : Config) (e : Entry) : Entry :=
  { btnClasses := rem_class e.btnClasses cfg.btn_active
    tabClasses := add_class (rem_class e.tabClasses cfg.tab_active) cfg.tab_hidden }

/-- Model of `Tabs.prototype.show` on the tabs map: update the entry stored under
`frag`.  (When `frag` is not a key the JS code would fault on
`t.btn`; that path is never taken by the modelled operations.) -/
def show_tab (cfg : Config) (tabs : List (String × Entry)) (f : String) :
    List (String × Entry) :=
  tabs.map (fun p => if p.1 = f then (p.1, showEntry cfg p.2) else p)

/-- Model of `Tabs.prototype.hide` on the tabs map (same convention as `show_tab`). -/
def hide_tab (cfg : Config) (tabs : List (String × Entry)) (f : String) :
    List (String × Entry) :=
  tabs.map (fun p => if p.1 = f then (p.1, hideEntry cfg p.2) else p)

/-- Model of `Tabs.prototype.hide_all`: hide every entry of the tabs map. -/
def hide_all (cfg : Config) (tabs : List (String × Entry)) : List (String × Entry) :=
  tabs.map (fun p => (p.1, hideEntry cfg p.2))

/-! ## `find_tnav` -/

/-- Model of `Tabs.prototype.find_tnav`, document-query part: the CSS selector built
by the source is `'[' + attr + '="' + (name ? name : "") + '"]'`, i.e. an
*exact value* match against `name`, or against the empty string when `name`
is unset; among the matches, the first element that does not carry the
`"<attr>-set"` attribute is returned. -/
def find_tnav (name : Option String) (doc : List TElem) : Option TElem :=
  (doc.filter (fun e => e.attrVal = some (name.getD ""))).find? (fun e => !e.hasSet)

/-! ## `init` -/

/-- The per-button key resolution of `Tabs.prototype.init`: `find_href`
(result supplied in the button), the `!href` truthiness guard, `frag`
extraction with its `!frag` guard, and the `document.getElementById`
lookup against the panels present in the document. -/
def bindKey (panels : List (String × List String)) (b : Button) : Option String :=
  match b.href with
  | none => none
  | some h =>
    if h = "" then none
    else
      let f := frag h
      if f = "" then none
      else if (panels.lookup f).isSome then some f else none

/-- JS object property update `this.tabs[f] = e`: replace in place when the
key exists, append otherwise. -/
def upsert : List (String × Entry) → String → Entry → List (String × Entry)
  | [], f, e => [(f, e)]
  | (k, v) :: t, f, e =>
    if k = f then (k, e) :: t else (k, v) :: upsert t f e

/-- One iteration of the button loop in `Tabs.prototype.init`, acting on the
accumulated `(this.tabs, this.curr)` pair.  `urlFrags` is the list of URL
sub-keys computed before the loop. -/
def initStep (cfg : Config) (panels : List (String × List String))
    (urlFrags : List String) (acc : List (String × Entry) × Option String)
    (b : Button) : List (String × Entry) × Option String :=
  match bindKey panels b with
  | none => acc
  | some f =>
    let e : Entry :=
      { btnClasses := b.classes
        tabClasses := add_class ((panels.lookup f).getD []) cfg.tab_class }
    (upsert acc.1 f e, if f ∈ urlFrags ∨ acc.2 = none then some f else acc.2)

/-- The button loop of `Tabs.prototype.init`: fold `initStep` over the
buttons, starting from the current `(this.tabs, this.curr)`, with the URL
sub-key list decoded before the loop. -/
def initPair (btns : List Button) (panels : List (String × List String))
    (s : TabsState) : List (String × Entry) × Option String :=
  btns.foldl (initStep s.cfg panels (frags s.cfg.frag_sep (frag s.url))) (s.tabs, s.curr)

/-- The `hide_all()` / `show(this.curr)` sequence at the end of a successful
`init`, applied to the loop result. -/
def initTabsFinal (cfg : Config) (r : List (String × Entry) × Option String) :
    List (String × Entry) :=
  match r.2 with
  | none => hide_all cfg r.1
  | some c => show_tab cfg (hide_all cfg r.1) c

/-- Model of `Tabs.prototype.init`.  `navs` is the document's candidate navigation
elements in document order, `btns` the button candidates of the found
navigation (in order), `panels` the document's elements with an id, as an
`id ↦ classList` association list.  Returns the JS boolean result together
with the state after the call. -/
def init (navs : List TElem) (btns : List Button)
    (panels : List (String × List String)) (s : TabsState) : Bool × TabsState :=
  match oor s.tnav (find_tnav s.cfg.name navs) with
  | none => (false, { s with tnav := none })
  | some tn =>
    let r := initPair btns panels s
    if r.1.isEmpty then
      (false, { s with tnav := some tn, tabs := r.1, curr := r.2 })
    else
      (true, { s with
        tnav := some { tn with hasSet := true }
        tabs := initTabsFinal s.cfg r
        curr := r.2 })

/-! ## `update_frags` -/

/-- The list transformation at the heart of `Tabs.prototype.update_frags`:
```js
var idx = frags.indexOf(this.curr);
frags[idx == -1 ? frags.length : idx] = next;
```
`curr` is `this.curr` (`indexOf(null)` is `-1`, hence the append on
`none`). -/
def update_frags_list (fr : List String) (curr : Option String) (next : String) :
    List String :=
  match curr with
  | none => fr ++ [next]
  | some c =>
    match fr.findIdx? (· = c) with
    | none => fr ++ [next]
    | some i => fr.set i next

/-- Effect of `history.replaceState(undefined, undefined, frag_str)` on the
document URL where `frag_str` starts with `"#"`: everything from the first
`"#"` of the current URL on is replaced by `frag_str`. -/
def replaceFrag (url : String) (frag_str : String) : String :=
  String.mk (splitChar '#' url.data).1 ++ frag_str

/-- Model of `Tabs.prototype.update_frags` as a URL transformation: decode the current
URL, replace/append the sub-key, re-join, and replace the URL fragment.
No-op when `set_frags` is `false`. -/
def update_frags (cfg : Config) (curr : Option String) (url : String)
    (next : String) : String :=
  if cfg.set_frags = false then url
  else
    let fr := frags cfg.frag_sep (frag url)
    let fr2 := update_frags_list fr curr next
    replaceFrag url ("#" ++ jsJoin cfg.frag_sep fr2)

/-! ## `open`, `click`, `kill` -/

/-- Model of `Tabs.prototype.open` (prototype version): three guard clauses, then
hide the previous tab, show the new one, update the URL fragments, and
update `this.curr`. -/
def open_tab (f : String) (s : TabsState) : TabsState :=
  if s.curr = some f then s
  else if (s.tabs.lookup f).isNone then s
  else
    match s.curr with
    | none => s
    | some c =>
      if (s.tabs.lookup c).isNone then s
      else
        { s with
          tabs := show_tab s.cfg (hide_tab s.cfg s.tabs c) f
          url := update_frags s.cfg s.curr s.url f
          curr := some f }

/-- Model of `Tabs.open` (class version): same guards except that an invalid current
key does not abort — it merely skips the `hide` step. -/
def open_tab_c (f : String) (s : TabsState) : TabsState :=
  if s.curr = some f then s
  else if (s.tabs.lookup f).isNone then s
  else
    let tabs1 := match s.curr with
      | none => s.tabs
      | some c => if (s.tabs.lookup c).isSome then hide_tab s.cfg s.tabs c else s.tabs
    { s with
      tabs := show_tab s.cfg tabs1 f
      url := update_frags s.cfg s.curr s.url f
      curr := some f }

/-- Model of `Tabs.prototype.click`, given the clicked button's resolved `href`
(`find_href(event.currentTarget)`): `!href || this.open(this.frag(href))`. -/
def click (href : Option String) (s : TabsState) : TabsState :=
  match href with
  | none => s
  | some h => if h = "" then s else open_tab (frag h) s

/-- Model of `Tabs.prototype.kill`: forget all tabs and the current tab, and remove
the `"<attr>-set"` marker from the navigation element; options and the
`tnav` reference are kept.  (The class-list restorations it performs on the
no-longer-referenced button/tab elements are dropped together with the
entries that held them.) -/
def kill (s : TabsState) : TabsState :=
  { s with
    tabs := []
    curr := none
    tnav := s.tnav.map (fun t => { t with hasSet := false }) }

/-! ## Construction (`function Tabs(o)` and the class constructor) -/

/-- A JS value as it can appear in the options object. -/
inductive JVal where
  | str (s : String)
  | boolean (b : Bool)
  | null
deriving Repr, DecidableEq

/-- An options object: a key/value list (keys unique). -/
def JObj := List (String × JVal)

/-- The option fields of the prototype version, holding whatever JS values
the caller supplied. -/
structure ConfigV where
  attr : JVal
  name : JVal
  btn_select : JVal
  btn_active : JVal
  tab_class : JVal
  tab_active : JVal
  tab_hidden : JVal
  set_frags : JVal
  frag_sep : JVal
deriving Repr, DecidableEq

/-- Model of `Tabs.prototype.get_opt`:
`return obj.hasOwnProperty(opt) ? obj[opt] : def;` — faulting with a
`TypeError` when `obj` is `undefined` (the constructor passes its argument
through unchecked). -/
def get_opt (obj : Option JObj) (opt : String) (defv : JVal) : Except String JVal :=
  match obj with
  | none => .error "TypeError: Cannot read properties of undefined"
  | some o => .ok ((o.lookup opt).getD defv)

/-- Model of `function Tabs(o)` (prototype version): nine `get_opt` calls against the
(possibly omitted) options object. -/
def tabs_new (o : Option JObj) : Except String ConfigV := do
  let attr ← get_opt o "attr" (.str "data-tabs")
  let name ← get_opt o "name" .null
  let btn_select ← get_opt o "btn_select" .null
  let btn_active ← get_opt o "btn_active" (.str "active")
  let tab_class ← get_opt o "tab_class" (.str "tab")
  let tab_active ← get_opt o "tab_active" (.str "active")
  let tab_hidden ← get_opt o "tab_hidden" (.str "hidden")
  let set_frags ← get_opt o "set_frags" (.boolean true)
  let frag_sep ← get_opt o "frag_sep" (.str ":")
  pure { attr, name, btn_select, btn_active, tab_class, tab_active,
         tab_hidden, set_frags, frag_sep }

/-- The option fields of the class version (which has two extra options,
`nav_class` and `btn_class`). -/
structure ConfigVC where
  attr : JVal
  name : JVal
  nav_class : JVal
  btn_select : JVal
  btn_class : JVal
  btn_active : JVal
  tab_class : JVal
  tab_active : JVal
  tab_hidden : JVal
  set_frags : JVal
  frag_sep : JVal
deriving Repr, DecidableEq

/-- The defaults preassigned by the class constructor before
`Object.assign(this, o)`. -/
def classDefaults : ConfigVC :=
  { attr := .str "data-tabs", name := .null, nav_class := .str "tab-nav"
    btn_select := .null, btn_class := .str "tab-button"
    btn_active := .str "active", tab_class := .str "tab"
    tab_active := .str "active", tab_hidden := .str "hidden"
    set_frags := .boolean true, frag_sep := .str ":" }

/-- One property copy performed by `Object.assign(this, o)`: a recognized
option name overwrites the corresponding field; other properties land on the
instance but are never read, so they are dropped here. -/
def assignField (c : ConfigVC) (kv : String × JVal) : ConfigVC :=
  if kv.1 = "attr" then { c with attr := kv.2 }
  else if kv.1 = "name" then { c with name := kv.2 }
  else if kv.1 = "nav_class" then { c with nav_class := kv.2 }
  else if kv.1 = "btn_select" then { c with btn_select := kv.2 }
  else if kv.1 = "btn_class" then { c with btn_class := kv.2 }
  else if kv.1 = "btn_active" then { c with btn_active := kv.2 }
  else if kv.1 = "tab_class" then { c with tab_class := kv.2 }
  else if kv.1 = "tab_active" then { c with tab_active := kv.2 }
  else if kv.1 = "tab_hidden" then { c with tab_hidden := kv.2 }
  else if kv.1 = "set_frags" then { c with set_frags := kv.2 }
  else if kv.1 = "frag_sep" then { c with frag_sep := kv.2 }
  else c

/-- The class constructor: defaults, then `Object.assign(this, o)`
(`Object.assign` ignores an `undefined`/`null` source, so construction
always succeeds). -/
def tabs_new_c (o : Option JObj) : ConfigVC :=
  (o.getD []).foldl assignField classDefaults

/-! ## Lemmas about split and join -/

theorem data_append (a b : String) : (a ++ b).data = a.data ++ b.data := by
  cases a; cases b; rfl

theorem mk_data (s : String) : String.mk s.data = s := by
  cases s; rfl

theorem splitChar_append_of_not_mem {sep : Char} {x : List Char}
    (hx : sep ∉ x) (r : List Char) :
    splitChar sep (x ++ r) = ((x ++ (splitChar sep r).1, (splitChar sep r).2)) := by
  induction x with
  | nil => simp
  | cons c cs ih =>
    have hcs : sep ∉ cs := fun h => hx (List.mem_cons_of_mem _ h)
    have hc : c ≠ sep := fun h => hx (h ▸ List.mem_cons_self _ _)
    simp [splitChar, ih hcs, hc]

theorem splitChar_cons_sep (sep : Char) (r : List Char) :
    splitChar sep (sep :: r) = ([], (splitChar sep r).1 :: (splitChar sep r).2) := by
  simp [splitChar]

theorem splitChar_of_not_mem {sep : Char} {x : List Char} (hx : sep ∉ x) :
    splitChar sep x = (x, []) := by
  have := splitChar_append_of_not_mem hx []
  simpa [splitChar] using this

theorem splitCharList_join {sep : Char} :
    ∀ (xss : List (List Char)) (x : List Char), sep ∉ x → (∀ y ∈ xss, sep ∉ y) →
    splitCharList sep (joinChar sep (x :: xss)) = x :: xss := by
  intro xss
  induction xss with
  | nil =>
    intro x hx _
    simp [joinChar, splitCharList, splitChar_of_not_mem hx]
  | cons y t ih =>
    intro x hx hall
    have hy : sep ∉ y := hall y (List.mem_cons_self _ _)
    have ht : ∀ z ∈ t, sep ∉ z := fun z hz => hall z (List.mem_cons_of_mem _ hz)
    have hrec := ih y hy ht
    show splitCharList sep (x ++ sep :: joinChar sep (y :: t)) = x :: y :: t
    unfold splitCharList at hrec ⊢
    rw [splitChar_append_of_not_mem hx, splitChar_cons_sep]
    simp only at hrec ⊢
    rw [List.cons.injEq] at hrec
    simp [hrec.1, hrec.2]

theorem jsSplit_jsJoin {sep : Char} {xs : List String}
    (hxs : ∀ x ∈ xs, sep ∉ x.data) (hne : xs ≠ []) :
    jsSplit sep (jsJoin sep xs) = xs := by
  cases xs with
  | nil => exact absurd rfl hne
  | cons x t =>
    unfold jsSplit jsJoin
    have : (String.mk (joinChar sep ((x :: t).map String.data))).data
        = joinChar sep (x.data :: t.map String.data) := by simp
    rw [this]
    rw [splitCharList_join (t.map String.data) x.data
      (hxs x (List.mem_cons_self _ _))
      (by intro y hy
          rcases List.mem_map.mp hy with ⟨z, hz, rfl⟩
          exact hxs z (List.mem_cons_of_mem _ hz))]
    have h2 : (String.mk ∘ String.data) = (id : String → String) := funext mk_data
    simp [mk_data, h2]

/-! ## Lemmas about `oor` and association lists -/

theorem oor_none_left {α : Type} (b : Option α) : oor none b = b := rfl

theorem oor_none_right {α : Type} (a : Option α) : oor a none = a := by
  cases a <;> rfl

theorem oor_some {α : Type} (a : α) (b : Option α) : oor (some a) b = some a := rfl

theorem oor_assoc {α : Type} (a b c : Option α) :
    oor (oor a b) c = oor a (oor b c) := by
  cases a <;> cases b <;> rfl

theorem lookup_isSome_iff_mem_map_fst {β : Type} (l : List (String × β)) (k : String) :
    (l.lookup k).isSome ↔ k ∈ l.map Prod.fst := by
  induction l with
  | nil => simp [List.lookup]
  | cons p t ih =>
    by_cases h : k = p.1
    · simp [List.lookup, h]
    · have hbeq : (k == p.1) = false := beq_false_of_ne h
      simp [List.lookup, hbeq, ih, h]

theorem lookup_upsert (t : List (String × Entry)) (f : String) (e : Entry)
    (k : String) :
    (upsert t f e).lookup k = if k = f then some e else t.lookup k := by
  induction t with
  | nil =>
    by_cases h : k = f
    · simp [upsert, List.lookup, h]
    · simp [upsert, List.lookup, beq_false_of_ne h, h]
  | cons p t ih =>
    rcases p with ⟨k', v⟩
    by_cases h1 : k' = f
    · subst h1
      by_cases h2 : k = k'
      · simp [upsert, List.lookup, h2]
      · simp [upsert, List.lookup, beq_false_of_ne h2, h2]
    · by_cases h2 : k = k'
      · subst h2
        simp [upsert, h1, List.lookup]
      · simp [upsert, h1, List.lookup, beq_false_of_ne h2, ih]

theorem map_fst_upsert (t : List (String × Entry)) (f : String) (e : Entry) :
    (upsert t f e).map Prod.fst =
      (if f ∈ t.map Prod.fst then t.map Prod.fst else t.map Prod.fst ++ [f]) := by
  induction t with
  | nil => simp [upsert]
  | cons p t ih =>
    rcases p with ⟨k', v⟩
    by_cases h : k' = f
    · subst h
      simp [upsert]
    · have : f ≠ k' := fun hh => h hh.symm
      simp [upsert, h, ih, this]
      by_cases hm : f ∈ t.map Prod.fst <;> simp [hm, this]

theorem map_fst_show_tab (cfg : Config) (tabs : List (String × Entry)) (f : String) :
    (show_tab cfg tabs f).map Prod.fst = tabs.map Prod.fst := by
  unfold show_tab
  rw [List.map_map]
  apply List.map_congr_left
  intro p _
  by_cases h : p.1 = f <;> simp [h]

theorem map_fst_hide_tab (cfg : Config) (tabs : List (String × Entry)) (f : String) :
    (hide_tab cfg tabs f).map Prod.fst = tabs.map Prod.fst := by
  unfold hide_tab
  rw [List.map_map]
  apply List.map_congr_left
  intro p _
  by_cases h : p.1 = f <;> simp [h]

theorem map_fst_hide_all (cfg : Config) (tabs : List (String × Entry)) :
    (hide_all cfg tabs).map Prod.fst = tabs.map Prod.fst := by
  unfold hide_all
  rw [List.map_map]
  rfl

/-! ## The active-key selection fold of `init` -/

/-- The `this.curr` update of one bound iteration of the `init` loop:
`if (frags.indexOf(frag) !== -1 || this.curr === null) { this.curr = frag; }`. -/
def selStep (urlFrags : List String) (c : Option String) (f : String) : Option String :=
  if f ∈ urlFrags ∨ c = none then some f else c

/-- The last member of `ks` that occurs in `urlFrags` (`none` when there is
none). -/
def lastMatch (urlFrags ks : List String) : Option String :=
  ks.foldl (fun a k => if k ∈ urlFrags then some k else a) none

/-- The sequence of keys bound by the `init` loop, in iteration order
(duplicates included). -/
def boundSeq (panels : List (String × List String)) (btns : List Button) :
    List String :=
  btns.filterMap (bindKey panels)

theorem lastMatch_acc (u : List String) (ks : List String) (a0 : Option String) :
    ks.foldl (fun a k => if k ∈ u then some k else a) a0 = oor (lastMatch u ks) a0 := by
  induction ks generalizing a0 with
  | nil => simp [lastMatch, oor]
  | cons k t ih =>
    by_cases hk : k ∈ u
    · simp only [List.foldl_cons, if_pos hk]
      rw [ih, show lastMatch u (k :: t) = oor (lastMatch u t) (some k) by
        simp only [lastMatch, List.foldl_cons, if_pos hk]
        exact ih (some k)]
      rw [oor_assoc, oor_some]
    · simp only [List.foldl_cons, if_neg hk]
      rw [ih, show lastMatch u (k :: t) = lastMatch u t by
        simp only [lastMatch, List.foldl_cons, if_neg hk]]

theorem selFold (u : List String) (ks : List String) (c0 : Option String) :
    ks.foldl (selStep u) c0 = oor (lastMatch u ks) (oor c0 ks.head?) := by
  induction ks generalizing c0 with
  | nil => simp [lastMatch, oor_none_left, oor_none_right]
  | cons k t ih =>
    have hlm : lastMatch u (k :: t) = oor (lastMatch u t) (if k ∈ u then some k else none) := by
      simp only [lastMatch, List.foldl_cons]
      rw [show (if k ∈ u then some k else (none : Option String)) =
        (fun a k' => if k' ∈ u then some k' else a) none k from rfl]
      exact lastMatch_acc u t _
    rcases c0 with _ | a
    · by_cases hk : k ∈ u
      · have hs : selStep u none k = some k := by simp [selStep]
        rw [List.foldl_cons, hs, ih, hlm, if_pos hk]
        cases lastMatch u t <;> rfl
      · have hs : selStep u none k = some k := by simp [selStep]
        rw [List.foldl_cons, hs, ih, hlm, if_neg hk]
        cases lastMatch u t <;> rfl
    · by_cases hk : k ∈ u
      · have hs : selStep u (some a) k = some k := by simp [selStep, hk]
        rw [List.foldl_cons, hs, ih, hlm, if_pos hk]
        cases lastMatch u t <;> rfl
      · have hs : selStep u (some a) k = some a := by simp [selStep, hk]
        rw [List.foldl_cons, hs, ih, hlm, if_neg hk]
        cases lastMatch u t <;> rfl

theorem foldl_initStep_snd (cfg : Config) (panels : List (String × List String))
    (u : List String) (btns : List Button) (t0 : List (String × Entry))
    (c0 : Option String) :
    (btns.foldl (initStep cfg panels u) (t0, c0)).2 =
      (boundSeq panels btns).foldl (selStep u) c0 := by
  induction btns generalizing t0 c0 with
  | nil => simp [boundSeq]
  | cons b bs ih =>
    simp only [boundSeq, List.foldl_cons, List.filterMap_cons]
    cases hb : bindKey panels b with
    | none => simpa [initStep, hb, boundSeq] using ih t0 c0
    | some f =>
      simp only [initStep, hb]
      simpa [boundSeq, selStep] using ih _ _

/-- The update `if f ∈ ks then ks else ks ++ [f]`: the key-set effect of a JS property
update. -/
def upsertKey (ks : List String) (f : String) : List String :=
  if f ∈ ks then ks else ks ++ [f]

theorem foldl_initStep_fst (cfg : Config) (panels : List (String × List String))
    (u : List String) (btns : List Button) (t0 : List (String × Entry))
    (c0 : Option String) :
    (btns.foldl (initStep cfg panels u) (t0, c0)).1.map Prod.fst =
      (boundSeq panels btns).foldl upsertKey (t0.map Prod.fst) := by
  induction btns generalizing t0 c0 with
  | nil => simp [boundSeq]
  | cons b bs ih =>
    simp only [boundSeq, List.foldl_cons, List.filterMap_cons]
    cases hb : bindKey panels b with
    | none => simpa [initStep, hb, boundSeq] using ih t0 c0
    | some f =>
      simp only [initStep, hb]
      rw [List.foldl_cons, ih]
      simp [boundSeq, map_fst_upsert, upsertKey]

theorem bindKey_congr_ids {panels panels2 : List (String × List String)}
    (hp : panels.map Prod.fst = panels2.map Prod.fst) (b : Button) :
    bindKey panels b = bindKey panels2 b := by
  cases b with
  | mk href classes =>
    cases href with
    | none => rfl
    | some h =>
      simp only [bindKey]
      by_cases h1 : h = ""
      · simp [h1]
      · simp only [if_neg h1]
        by_cases h2 : frag h = ""
        · simp [h2]
        · simp only [if_neg h2]
          have e1 := lookup_isSome_iff_mem_map_fst panels (frag h)
          have e2 := lookup_isSome_iff_mem_map_fst panels2 (frag h)
          rw [hp] at e1
          have : (panels.lookup (frag h)).isSome = (panels2.lookup (frag h)).isSome := by
            cases hA : (panels.lookup (frag h)).isSome <;>
              cases hB : (panels2.lookup (frag h)).isSome <;> simp_all
          rw [this]

/-- The relation between `this.tabs` and `this.curr` maintained by the
`init` loop. -/
def currInv (t : List (String × Entry)) (c : Option String) : Prop :=
  (t = [] ∧ c = none) ∨ ∃ k, c = some k ∧ (t.lookup k).isSome

theorem initStep_currInv (cfg : Config) (panels : List (String × List String))
    (u : List String) (acc : List (String × Entry) × Option String) (b : Button)
    (h : currInv acc.1 acc.2) :
    currInv (initStep cfg panels u acc b).1 (initStep cfg panels u acc b).2 := by
  cases hb : bindKey panels b with
  | none => simpa [initStep, hb] using h
  | some f =>
    simp only [initStep, hb]
    by_cases hc : f ∈ u ∨ acc.2 = none
    · simp only [if_pos hc]
      right
      exact ⟨f, rfl, by rw [lookup_upsert]; simp⟩
    · simp only [if_neg hc]
      rcases h with ⟨_, h2⟩ | ⟨k, hk, hl⟩
      · exact absurd (Or.inr h2) hc
      · right
        refine ⟨k, hk, ?_⟩
        rw [lookup_upsert]
        by_cases hkf : k = f <;> simp [hkf, hl]

theorem foldl_initStep_currInv (cfg : Config) (panels : List (String × List String))
    (u : List String) (btns : List Button) (acc : List (String × Entry) × Option String)
    (h : currInv acc.1 acc.2) :
    currInv (btns.foldl (initStep cfg panels u) acc).1
      (btns.foldl (initStep cfg panels u) acc).2 := by
  induction btns generalizing acc with
  | nil => exact h
  | cons b bs ih =>
    exact ih _ (initStep_currInv cfg panels u acc b h)

/-! ## Membership in class lists after `add_class` / `rem_class` -/

theorem mem_add_class {l : List String} {c x : String} :
    x ∈ add_class l c ↔ x ∈ l ∨ (x = c ∧ c ≠ "") := by
  unfold add_class
  by_cases hc : c = ""
  · simp [hc]
  · by_cases hm : c ∈ l
    · simp only [if_neg hc, if_pos hm]
      constructor
      · exact fun h => Or.inl h
      · rintro (h | ⟨rfl, _⟩)
        · exact h
        · exact hm
    · simp [if_neg hc, if_neg hm, hc]

theorem mem_rem_class {l : List String} {c x : String} :
    x ∈ rem_class l c ↔ x ∈ l ∧ (c ≠ "" → x ≠ c) := by
  unfold rem_class
  by_cases hc : c = ""
  · simp [hc]
  · simp [hc, List.mem_filter]

/-! ## `List.findIdx?` and `List.set` positional lemmas -/

theorem findIdx?_eq_none_of_not_mem {l : List String} {c : String}
    (h : c ∉ l) : l.findIdx? (· = c) = none := by
  induction l with
  | nil => rfl
  | cons a t ih =>
    have ha : a ≠ c := fun hh => h (hh ▸ List.mem_cons_self _ _)
    have ht : c ∉ t := fun hh => h (List.mem_cons_of_mem _ hh)
    rw [List.findIdx?_cons]
    simp only [ha, decide_eq_true_eq, if_neg]
    simp [ha, ih ht]

theorem findIdx?_eq_some_of_first {l : List String} {c : String} {i : Nat}
    (hi : i < l.length) (hc : l.get ⟨i, hi⟩ = c)
    (hfirst : ∀ j, j < i → l.get? j ≠ some c) :
    l.findIdx? (· = c) = some i := by
  induction l generalizing i with
  | nil => exact absurd hi (by simp)
  | cons a t ih =>
    cases i with
    | zero =>
      simp only [List.get] at hc
      subst hc
      simp [List.findIdx?_cons]
    | succ n =>
      have ha : a ≠ c := by
        have := hfirst 0 (Nat.succ_pos n)
        simpa using this
      rw [List.findIdx?_cons]
      simp only [decide_eq_true_eq, if_neg ha]
      have hrec := ih (i := n) (by simpa using hi) (by simpa using hc)
        (fun j hj => by
          have := hfirst (j + 1) (Nat.succ_lt_succ hj)
          simpa using this)
      rw [List.findIdx?_succ, hrec]
      rfl

theorem get?_set_self {α : Type} (l : List α) (i : Nat) (x : α) (hi : i < l.length) :
    (l.set i x).get? i = some x := by
  induction l generalizing i with
  | nil => exact absurd hi (by simp)
  | cons a t ih =>
    cases i with
    | zero => rfl
    | succ n => exact ih n (by simpa using hi)

theorem get?_set_ne {α : Type} (l : List α) (i : Nat) (x : α) {j : Nat}
    (h : j ≠ i) : (l.set i x).get? j = l.get? j := by
  induction l generalizing i j with
  | nil => simp
  | cons a t ih =>
    cases i with
    | zero =>
      cases j with
      | zero => exact absurd rfl h
      | succ m => rfl
    | succ n =>
      cases j with
      | zero => rfl
      | succ m => exact ih n (fun hh => h (by omega))

/-! ## Further helper lemmas -/

theorem str_ext {a b : String} (h : a.data = b.data) : a = b := by
  have h2 := congrArg String.mk h
  rwa [mk_data, mk_data] at h2

theorem data_ne_nil_of_ne_empty {s : String} (h : s ≠ "") : s.data ≠ [] := by
  intro hd
  exact h (str_ext (by simpa using hd))

theorem ne_empty_of_data_ne_nil {s : String} (h : s.data ≠ []) : s ≠ "" := by
  intro he
  exact h (he ▸ rfl)

theorem not_mem_joinChar {c sep : Char} (hcs : c ≠ sep) :
    ∀ (xss : List (List Char)), (∀ y ∈ xss, c ∉ y) → c ∉ joinChar sep xss := by
  intro xss
  induction xss with
  | nil => intro _; simp [joinChar]
  | cons x t ih =>
    intro hall
    cases t with
    | nil =>
      simpa [joinChar] using hall x (List.mem_cons_self _ _)
    | cons y t2 =>
      show c ∉ x ++ sep :: joinChar sep (y :: t2)
      intro hmem
      rcases List.mem_append.mp hmem with h | h
      · exact hall x (List.mem_cons_self _ _) h
      · rcases List.mem_cons.mp h with h | h
        · exact hcs h
        · exact ih (fun z hz => hall z (List.mem_cons_of_mem _ hz)) h

theorem joinChar_ne_nil {sep : Char} {xss : List (List Char)}
    (hne : xss ≠ []) (hall : ∀ y ∈ xss, y ≠ []) : joinChar sep xss ≠ [] := by
  cases xss with
  | nil => exact absurd rfl hne
  | cons x t =>
    cases t with
    | nil => simpa [joinChar] using hall x (List.mem_cons_self _ _)
    | cons y t2 =>
      show x ++ sep :: joinChar sep (y :: t2) ≠ []
      intro h
      rcases List.append_eq_nil.mp h with ⟨_, h2⟩
      exact List.cons_ne_nil _ _ h2

theorem findIdx?_isSome_of_mem {l : List String} {c : String} (h : c ∈ l) :
    (l.findIdx? (· = c)).isSome := by
  induction l with
  | nil => simp at h
  | cons a t ih =>
    by_cases ha : a = c
    · simp [List.findIdx?_cons, ha]
    · rcases List.mem_cons.mp h with h' | h'
      · exact absurd h'.symm ha
      · rw [List.findIdx?_cons]
        simp only [decide_eq_true_eq, if_neg ha]
        rw [List.findIdx?_succ]
        simpa using ih h'

theorem mem_of_mem_set {α : Type} {l : List α} {i : Nat} {x y : α}
    (h : y ∈ l.set i x) : y ∈ l ∨ y = x := by
  induction l generalizing i with
  | nil => simp at h
  | cons a t ih =>
    cases i with
    | zero =>
      rcases List.mem_cons.mp h with h' | h'
      · exact Or.inr h'
      · exact Or.inl (List.mem_cons_of_mem _ h')
    | succ n =>
      rcases List.mem_cons.mp h with h' | h'
      · exact Or.inl (h' ▸ List.mem_cons_self _ _)
      · rcases ih h' with h2 | h2
        · exact Or.inl (List.mem_cons_of_mem _ h2)
        · exact Or.inr h2

theorem set_ne_nil {α : Type} {l : List α} (h : l ≠ []) (i : Nat) (x : α) :
    l.set i x ≠ [] := by
  cases l with
  | nil => exact absurd rfl h
  | cons a t => cases i <;> simp

/-- Destructuring a successful `init`. -/
theorem init_true_elim {navs : List TElem} {btns : List Button}
    {panels : List (String × List String)} {s0 s1 : TabsState}
    (h : init navs btns panels s0 = (true, s1)) :
    ∃ tn, oor s0.tnav (find_tnav s0.cfg.name navs) = some tn ∧
      (initPair btns panels s0).1 ≠ [] ∧
      s1 = { s0 with
        tnav := some { tn with hasSet := true }
        tabs := initTabsFinal s0.cfg (initPair btns panels s0)
        curr := (initPair btns panels s0).2 } := by
  unfold init at h
  cases hnav : oor s0.tnav (find_tnav s0.cfg.name navs) with
  | none => rw [hnav] at h; simp at h
  | some tn =>
    rw [hnav] at h
    dsimp only at h
    by_cases he : (initPair btns panels s0).1.isEmpty
    · rw [if_pos he] at h; simp at h
    · rw [if_neg he] at h
      refine ⟨tn, rfl, fun hnil => he (by simp [hnil]), ?_⟩
      have h2 := congrArg Prod.snd h
      simpa using h2.symm

/-- Taking `map Prod.fst` of the final tabs of a successful `init` is that of the
loop result. -/
theorem map_fst_initTabsFinal (cfg : Config) (r : List (String × Entry) × Option String) :
    (initTabsFinal cfg r).map Prod.fst = r.1.map Prod.fst := by
  unfold initTabsFinal
  cases r.2 with
  | none => exact map_fst_hide_all cfg r.1
  | some c => rw [map_fst_show_tab, map_fst_hide_all]

/-! ## Decoding lemmas for `frag` -/

theorem splitCharList_two {sep : Char} {b f : List Char}
    (hb : sep ∉ b) (hf : sep ∉ f) :
    splitCharList sep (b ++ sep :: f) = [b, f] := by
  unfold splitCharList
  rw [splitChar_append_of_not_mem hb, splitChar_cons_sep, splitChar_of_not_mem hf]
  simp

theorem splitCharList_three {sep : Char} {b f r : List Char}
    (hb : sep ∉ b) (hf : sep ∉ f) (hr : sep ∉ r) :
    splitCharList sep (b ++ sep :: (f ++ sep :: r)) = [b, f, r] := by
  unfold splitCharList
  rw [splitChar_append_of_not_mem hb, splitChar_cons_sep,
    splitChar_append_of_not_mem hf, splitChar_cons_sep, splitChar_of_not_mem hr]
  simp

theorem data_append_hash (base f : String) :
    (base ++ "#" ++ f).data = base.data ++ '#' :: f.data := by
  rw [data_append, data_append]
  rw [show ("#" : String).data = ['#'] from rfl, List.append_assoc]
  rfl

theorem frag_of_no_hash {s : String} (h : '#' ∉ s.data) : frag s = "" := by
  unfold frag jsSplit
  rw [show splitCharList '#' s.data = [s.data] by
    unfold splitCharList; rw [splitChar_of_not_mem h]]
  simp

theorem frag_of_append {base f : String} (hb : '#' ∉ base.data)
    (hf : '#' ∉ f.data) : frag (base ++ "#" ++ f) = f := by
  unfold frag jsSplit
  rw [data_append_hash, splitCharList_two hb hf]
  simp [List.getD, mk_data]

theorem frag_of_append_two {base f rest : String} (hb : '#' ∉ base.data)
    (hf : '#' ∉ f.data) (hr : '#' ∉ rest.data) :
    frag (base ++ "#" ++ f ++ "#" ++ rest) = f := by
  unfold frag jsSplit
  have hd : (base ++ "#" ++ f ++ "#" ++ rest).data
      = base.data ++ '#' :: (f.data ++ '#' :: rest.data) := by
    rw [data_append_hash, data_append_hash]
    rw [List.append_assoc, List.cons_append]
  rw [hd, splitCharList_three hb hf hr]
  simp [List.getD, mk_data]

theorem frags_of_join {sep : Char} {l : List String}
    (hl : ∀ x ∈ l, x ≠ "" ∧ sep ∉ x.data) (hne : l ≠ []) :
    frags sep (jsJoin sep l) = l := by
  have hjd : (jsJoin sep l).data = joinChar sep (l.map String.data) := rfl
  have hnil : (jsJoin sep l).data ≠ [] := by
    rw [hjd]
    apply joinChar_ne_nil (by simpa using hne)
    intro y hy
    rcases List.mem_map.mp hy with ⟨z, hz, rfl⟩
    exact data_ne_nil_of_ne_empty (hl z hz).1
  unfold frags
  rw [if_neg (ne_empty_of_data_ne_nil hnil)]
  exact jsSplit_jsJoin (fun x hx => (hl x hx).2) hne

theorem splitChar_fst_of_append_hash (base f : String) (hb : '#' ∉ base.data) :
    (splitChar '#' (base ++ "#" ++ f).data).1 = base.data := by
  rw [data_append_hash, splitChar_append_of_not_mem hb, splitChar_cons_sep]
  simp

/-! ## Claim C10 -/

/-- C10: when the previous active key occurs in the decoded fragment list,
`update_frags` replaces only its first (leftmost) occurrence with the new
key — the replaced position holds the new key and every other position
(later duplicate occurrences of the previous key included) is unchanged —
and when the previous key does not occur at all, the new key is appended at
the end, leaving all existing positions unchanged. -/
theorem c10_first_occurrence_only (fr : List String) (c next : String) :
    (c ∉ fr → update_frags_list fr (some c) next = fr ++ [next]) ∧
    (∀ i (hi : i < fr.length), fr.get ⟨i, hi⟩ = c →
      (∀ j, j < i → fr.get? j ≠ some c) →
      update_frags_list fr (some c) next = fr.set i next ∧
      (fr.set i next).get? i = some next ∧
      (∀ j, j ≠ i → (fr.set i next).get? j = fr.get? j)) := by
  constructor
  · intro h
    unfold update_frags_list
    dsimp only
    rw [findIdx?_eq_none_of_not_mem h]
  · intro i hi hc hfirst
    refine ⟨?_, get?_set_self fr i next hi, fun j hj => get?_set_ne fr i next hj⟩
    unfold update_frags_list
    dsimp only
    rw [findIdx?_eq_some_of_first hi hc hfirst]

theorem c10_first_occurrence_only_witness :
    (update_frags_list ["a", "b", "a"] (some "a") "c" = ["c", "b", "a"] ∧
      (["a", "b", "a"].set 0 "c").get? 0 = some "c" ∧
      (∀ j, j ≠ 0 → (["a", "b", "a"].set 0 "c").get? j = ["a", "b", "a"].get? j)) ∧
    update_frags_list ["x", "y"] (some "a") "c" = ["x", "y"] ++ ["c"] := by
  constructor
  · have h := (c10_first_occurrence_only ["a", "b", "a"] "a" "c").2 0 (by decide)
      (by decide) (fun j hj => absurd hj (Nat.not_lt_zero j))
    exact ⟨h.1, h.2.1, h.2.2⟩
  · exact (c10_first_occurrence_only ["x", "y"] "a" "c").1 (by decide)

/-! ## Claim C2 -/

/-- C2: `open(k)` is a silent no-op — the whole state (class lists, URL,
active key) is unchanged and no error occurs — whenever `k` equals the
current active key, or `k` is not a key bound in `this.tabs`, or there is
currently no valid active key (`this.curr` not a key of `this.tabs`).  In
the class version the first two guards behave identically (the third is
unreachable for an initialized tab-set, whose active key is always
valid). -/
theorem c2_open_noop :
    (∀ (s : TabsState) (k : String),
      (s.curr = some k ∨ s.tabs.lookup k = none ∨
        (∀ c, s.curr = some c → s.tabs.lookup c = none)) →
      open_tab k s = s) ∧
    (∀ (s : TabsState) (k : String),
      (s.curr = some k ∨ s.tabs.lookup k = none) →
      open_tab_c k s = s) := by
  constructor
  · intro s k h
    unfold open_tab
    by_cases h1 : s.curr = some k
    · simp [h1]
    · rw [if_neg h1]
      rcases h with h | h | h
      · exact absurd h h1
      · simp [h]
      · by_cases h2 : (s.tabs.lookup k).isNone
        · simp [h2]
        · rw [if_neg (by simpa using h2)]
          cases hc : s.curr with
          | none => rfl
          | some c => simp [h c hc]
  · intro s k h
    unfold open_tab_c
    by_cases h1 : s.curr = some k
    · simp [h1]
    · rw [if_neg h1]
      rcases h with h | h
      · exact absurd h h1
      · simp [h]

/-- The source's default option values as a `Config` (the prototype
defaults: `tab_hidden` defaults to `"hidden"` there). -/
def cfgW : Config :=
  ⟨"data-tabs", none, none, "active", "tab", "active", "hidden", true, ':'⟩

/-- A one-tab state used to instantiate theorems with hypotheses. -/
def stateW : TabsState := ⟨cfgW, none, [("a", ⟨[], []⟩)], some "a", "u#a"⟩

theorem c2_open_noop_witness :
    (stateW.curr = some "a" ∧ open_tab "a" stateW = stateW) ∧
    (stateW.tabs.lookup "b" = none ∧ open_tab_c "b" stateW = stateW) :=
  ⟨⟨rfl, c2_open_noop.1 stateW "a" (Or.inl rfl)⟩,
   ⟨by decide, c2_open_noop.2 stateW "b" (Or.inr (by decide))⟩⟩

/-! ## Claim C4 -/

/-- C4 counterexample: the claim says that with no marker value configured
(`name` null) every element carrying the marker attribute is considered
regardless of its value, so the single unclaimed element with attribute
value `"x"` would be selected.  The code builds the selector
`[attr=""]` in that case, so the element is not considered at all and the
lookup returns nothing. -/
theorem c4_counterexample :
    find_tnav none [⟨some "x", false⟩] = none ∧
    find_tnav none [⟨some "x", false⟩] ≠ some ⟨some "x", false⟩ := by
  constructor
  · rfl
  · intro h
    simp [find_tnav, List.filter, List.find?] at h

/-- C4 (amended): navigation lookup matches the marker attribute's value
*exactly* against the configured marker value, or against the empty string
when none is configured (so only elements whose marker attribute value is
`""` — e.g. a bare attribute — are considered then); among the matches, the
first element that does not carry the claimed `"<attr>-set"` marker is
selected. -/
theorem c4_find_tnav_exact_match (name : Option String) (doc : List TElem) :
    find_tnav name doc =
      doc.find? (fun e => decide (e.attrVal = some (name.getD "")) && !e.hasSet) := by
  unfold find_tnav
  induction doc with
  | nil => rfl
  | cons e t ih =>
    by_cases h : e.attrVal = some (name.getD "")
    · cases hs : e.hasSet
      · simp [List.filter_cons, List.find?_cons, h, hs]
      · simp [List.filter_cons, List.find?_cons, h, hs, ih]
    · simp [List.filter_cons, List.find?_cons, h, ih]

/-! ## Claim C5 -/

/-- C5 counterexample: the claim says a string containing more than one `#`
yields everything after the first one (here `"a#b"`); the code (`split` on
`"#"`, take component 1) yields only the text between the first and second
`#`. -/
theorem c5_counterexample :
    frag "http://x#a#b" = "a" ∧ frag "http://x#a#b" ≠ "a#b" := by
  constructor
  · decide
  · decide

/-- C5 (amended): the decode step extracts the text between the first and
the second `#` of the URL (the whole remainder when there is exactly one
`#`), a string with no `#` yields the empty fragment, splitting is on the
configured separator, and an empty fragment decodes to the empty list. -/
theorem c5_frag_decode (sep : Char) (base f rest : String)
    (hb : '#' ∉ base.data) (hf : '#' ∉ f.data) (hr : '#' ∉ rest.data) :
    frag base = "" ∧
    frag (base ++ "#" ++ f) = f ∧
    frag (base ++ "#" ++ f ++ "#" ++ rest) = f ∧
    frags sep "" = [] ∧
    (f ≠ "" → frags sep f = jsSplit sep f) := by
  refine ⟨frag_of_no_hash hb, frag_of_append hb hf, frag_of_append_two hb hf hr,
    rfl, ?_⟩
  intro hne
  unfold frags
  rw [if_neg hne]

theorem c5_frag_decode_witness :
    frag "http://x" = "" ∧
    frag ("http://x" ++ "#" ++ "a:b") = "a:b" ∧
    frag ("http://x" ++ "#" ++ "a:b" ++ "#" ++ "c") = "a:b" ∧
    frags ':' "" = [] ∧
    ("a:b" ≠ "" → frags ':' "a:b" = jsSplit ':' "a:b") :=
  c5_frag_decode ':' "http://x" "a:b" "c" (by decide) (by decide) (by decide)

/-! ## Claim C9 -/

/-- The prototype-version defaults as a `ConfigV`. -/
def protoDefaults : ConfigV :=
  ⟨.str "data-tabs", .null, .null, .str "active", .str "tab", .str "active",
   .str "hidden", .boolean true, .str ":"⟩

/-- C9: construction behaviour.  The claim says construction succeeds for
every input including an omitted options object.  The prototype constructor
faults on an omitted object (its `get_opt` dereferences the missing
argument), while it does apply defaults for an empty object; the class
constructor succeeds on every input, applies all defaults when the object
is omitted, and a supplied subset overrides exactly those fields. -/
theorem c9_construction :
    tabs_new none = Except.error "TypeError: Cannot read properties of undefined" ∧
    tabs_new (some []) = Except.ok protoDefaults ∧
    tabs_new_c none = classDefaults ∧
    tabs_new_c (some [("name", .str "x")]) =
      { classDefaults with name := .str "x" } ∧
    tabs_new_c (some [("frag_sep", .str ";"), ("set_frags", .boolean false)]) =
      { classDefaults with frag_sep := .str ";", set_frags := .boolean false } := by
  refine ⟨rfl, rfl, rfl, rfl, rfl⟩

/-! ## Claim C3 -/

/-- C3: during initialization (from a fresh instance), every bound entry
whose key appears in the URL sub-key list overwrites `this.curr`, so the
active key after a successful `init` is the *last* bound key (in button
iteration order) occurring in the URL list, and the *first* bound key when
none occurs (`oor` of the last match and the head of the bound-key
sequence). -/
theorem c3_last_match_wins (navs : List TElem) (btns : List Button)
    (panels : List (String × List String)) (s0 s1 : TabsState)
    (ht : s0.tabs = []) (hc : s0.curr = none)
    (h : init navs btns panels s0 = (true, s1)) :
    s1.curr =
      oor (lastMatch (frags s0.cfg.frag_sep (frag s0.url)) (boundSeq panels btns))
        (boundSeq panels btns).head? := by
  obtain ⟨tn, hnav, hne, hs1⟩ := init_true_elim h
  subst hs1
  show (initPair btns panels s0).2 = _
  unfold initPair
  rw [ht, hc, foldl_initStep_snd, selFold, oor_none_left]

/-- Document pieces used to instantiate the initialization theorems. -/
def navsW : List TElem := [⟨some "", false⟩]

def btnsW : List Button := [⟨some "#a", []⟩, ⟨some "#b", []⟩]

def panelsW : List (String × List String) := [("a", []), ("b", [])]

def initW0 : TabsState := ⟨cfgW, none, [], none, "u#b"⟩

theorem c3_last_match_wins_witness :
    initW0.tabs = [] ∧ initW0.curr = none ∧
    init navsW btnsW panelsW initW0 = (true, (init navsW btnsW panelsW initW0).2) ∧
    (init navsW btnsW panelsW initW0).2.curr =
      oor (lastMatch (frags initW0.cfg.frag_sep (frag initW0.url))
            (boundSeq panelsW btnsW))
        (boundSeq panelsW btnsW).head? ∧
    (init navsW btnsW panelsW initW0).2.curr = some "b" :=
  ⟨rfl, rfl, by decide,
   c3_last_match_wins navsW btnsW panelsW initW0 _ rfl rfl (by decide),
   by decide⟩

/-! ## Claim C7 -/

/-- The invariant of claim C7: the active key is a valid key of the entries
map. -/
def activeKeyValid (s : TabsState) : Prop :=
  ∃ k, s.curr = some k ∧ (s.tabs.lookup k).isSome

/-- C7: after a successful `init` from a fresh instance, `this.curr` is a
valid key of `this.tabs`, and this remains true across every subsequent
`open` and `click` (`kill` is the only operation that clears it). -/
theorem c7_active_key_invariant :
    (∀ (navs : List TElem) (btns : List Button)
      (panels : List (String × List String)) (s0 s1 : TabsState),
      s0.tabs = [] → s0.curr = none →
      init navs btns panels s0 = (true, s1) → activeKeyValid s1) ∧
    (∀ (k : String) (s : TabsState), activeKeyValid s → activeKeyValid (open_tab k s)) ∧
    (∀ (h : Option String) (s : TabsState), activeKeyValid s → activeKeyValid (click h s)) := by
  have hopen : ∀ (k : String) (s : TabsState),
      activeKeyValid s → activeKeyValid (open_tab k s) := by
    intro k s hv
    unfold open_tab
    by_cases h1 : s.curr = some k
    · rw [if_pos h1]; exact hv
    · rw [if_neg h1]
      by_cases h2 : (s.tabs.lookup k).isNone
      · rw [if_pos h2]; exact hv
      · rw [if_neg h2]
        cases hcur : s.curr with
        | none => exact hv
        | some c =>
          dsimp only
          by_cases h3 : (s.tabs.lookup c).isNone
          · rw [if_pos h3]; exact hv
          · rw [if_neg h3]
            refine ⟨k, rfl, ?_⟩
            have hk : (s.tabs.lookup k).isSome := by
              cases hl : s.tabs.lookup k with
              | none => exact absurd (by rw [hl]; rfl) h2
              | some e => rfl
            have hmem := (lookup_isSome_iff_mem_map_fst s.tabs k).mp hk
            show ((show_tab s.cfg (hide_tab s.cfg s.tabs c) k).lookup k).isSome
            rw [lookup_isSome_iff_mem_map_fst, map_fst_show_tab, map_fst_hide_tab]
            exact hmem
  refine ⟨?_, hopen, ?_⟩
  · intro navs btns panels s0 s1 ht hc h
    obtain ⟨tn, hnav, hne, hs1⟩ := init_true_elim h
    have hbase : currInv s0.tabs s0.curr := Or.inl ⟨ht, hc⟩
    have hcurr := foldl_initStep_currInv s0.cfg panels
      (frags s0.cfg.frag_sep (frag s0.url)) btns (s0.tabs, s0.curr) hbase
    rcases hcurr with ⟨hnil, _⟩ | ⟨k, hk, hlook⟩
    · exact absurd hnil hne
    · subst hs1
      refine ⟨k, hk, ?_⟩
      show ((initTabsFinal s0.cfg (initPair btns panels s0)).lookup k).isSome
      rw [lookup_isSome_iff_mem_map_fst, map_fst_initTabsFinal]
      exact (lookup_isSome_iff_mem_map_fst _ k).mp hlook
  · intro h s hv
    unfold click
    cases h with
    | none => exact hv
    | some hh =>
      dsimp only
      by_cases he : hh = ""
      · rw [if_pos he]; exact hv
      · rw [if_neg he]; exact hopen _ _ hv

theorem c7_active_key_invariant_witness :
    (init navsW btnsW panelsW initW0 = (true, (init navsW btnsW panelsW initW0).2) ∧
      activeKeyValid (init navsW btnsW panelsW initW0).2) ∧
    activeKeyValid (open_tab "a" (init navsW btnsW panelsW initW0).2) ∧
    activeKeyValid (click (some "#a") (init navsW btnsW panelsW initW0).2) := by
  have h1 : init navsW btnsW panelsW initW0
      = (true, (init navsW btnsW panelsW initW0).2) := by decide
  have hv := c7_active_key_invariant.1 navsW btnsW panelsW initW0 _ rfl rfl h1
  exact ⟨⟨h1, hv⟩, c7_active_key_invariant.2.1 "a" _ hv,
    c7_active_key_invariant.2.2 (some "#a") _ hv⟩

/-! ## Claim C6 -/

/-- C6: after a successful `init` from a fresh instance (with a non-empty
active-panel class distinct from the hidden-panel class), there is an
active key `c`, it is bound in the tabs map, and for every bound entry:
the entry under `c` carries the active-panel class on its panel, and every
other entry does not carry it and carries the hidden-panel class whenever
one is configured. -/
theorem c6_exactly_one_active (navs : List TElem) (btns : List Button)
    (panels : List (String × List String)) (s0 s1 : TabsState)
    (ht : s0.tabs = []) (hc : s0.curr = none)
    (hact : s0.cfg.tab_active ≠ "")
    (hdist : s0.cfg.tab_active ≠ s0.cfg.tab_hidden)
    (h : init navs btns panels s0 = (true, s1)) :
    ∃ c, s1.curr = some c ∧ (∃ e, (c, e) ∈ s1.tabs) ∧
      ∀ p ∈ s1.tabs,
        (p.1 = c → s0.cfg.tab_active ∈ p.2.tabClasses) ∧
        (p.1 ≠ c → s0.cfg.tab_active ∉ p.2.tabClasses ∧
          (s0.cfg.tab_hidden ≠ "" → s0.cfg.tab_hidden ∈ p.2.tabClasses)) := by
  obtain ⟨tn, hnav, hne, hs1⟩ := init_true_elim h
  have hbase : currInv s0.tabs s0.curr := Or.inl ⟨ht, hc⟩
  have hcurr := foldl_initStep_currInv s0.cfg panels
    (frags s0.cfg.frag_sep (frag s0.url)) btns (s0.tabs, s0.curr) hbase
  rcases hcurr with ⟨hnil, _⟩ | ⟨c, hk, hlook⟩
  · exact absurd hnil hne
  · subst hs1
    have htabs : initTabsFinal s0.cfg (initPair btns panels s0)
        = show_tab s0.cfg (hide_all s0.cfg (initPair btns panels s0).1) c := by
      unfold initTabsFinal
      rw [show (initPair btns panels s0).2 = some c from hk]
    refine ⟨c, hk, ?_, ?_⟩
    · have hmem : c ∈ (initTabsFinal s0.cfg (initPair btns panels s0)).map Prod.fst := by
        rw [map_fst_initTabsFinal]
        exact (lookup_isSome_iff_mem_map_fst _ c).mp hlook
      rcases List.mem_map.mp hmem with ⟨p, hp, hfst⟩
      refine ⟨p.2, ?_⟩
      have hpe : (p.1, p.2) = p := rfl
      rw [← hfst, hpe]
      exact hp
    · intro p hp
      rw [htabs] at hp
      unfold show_tab at hp
      rcases List.mem_map.mp hp with ⟨q, hq, rfl⟩
      unfold hide_all at hq
      rcases List.mem_map.mp hq with ⟨q0, hq0, rfl⟩
      dsimp only
      by_cases hqc : q0.1 = c
      · rw [if_pos hqc]
        constructor
        · intro _
          show s0.cfg.tab_active ∈
            (rem_class (add_class (hideEntry s0.cfg q0.2).tabClasses s0.cfg.tab_active)
              s0.cfg.tab_hidden)
          exact mem_rem_class.mpr ⟨mem_add_class.mpr (Or.inr ⟨rfl, hact⟩), fun _ => hdist⟩
        · intro hne2
          exact absurd hqc hne2
      · rw [if_neg hqc]
        constructor
        · intro hpc
          exact absurd hpc hqc
        · intro _
          constructor
          · intro hmem
            rcases mem_add_class.mp hmem with hin | ⟨heq, _⟩
            · exact (mem_rem_class.mp hin).2 hact rfl
            · exact hdist heq
          · intro hh
            exact mem_add_class.mpr (Or.inr ⟨rfl, hh⟩)

theorem c6_exactly_one_active_witness :
    initW0.tabs = [] ∧ initW0.curr = none ∧
    initW0.cfg.tab_active ≠ "" ∧ initW0.cfg.tab_active ≠ initW0.cfg.tab_hidden ∧
    init navsW btnsW panelsW initW0 = (true, (init navsW btnsW panelsW initW0).2) ∧
    (∃ c, (init navsW btnsW panelsW initW0).2.curr = some c ∧
      (∃ e, (c, e) ∈ (init navsW btnsW panelsW initW0).2.tabs) ∧
      ∀ p ∈ (init navsW btnsW panelsW initW0).2.tabs,
        (p.1 = c → initW0.cfg.tab_active ∈ p.2.tabClasses) ∧
        (p.1 ≠ c → initW0.cfg.tab_active ∉ p.2.tabClasses ∧
          (initW0.cfg.tab_hidden ≠ "" → initW0.cfg.tab_hidden ∈ p.2.tabClasses))) :=
  ⟨rfl, rfl, by decide, by decide, by decide,
   c6_exactly_one_active navsW btnsW panelsW initW0 _ rfl rfl (by decide) (by decide)
     (by decide)⟩

/-! ## Claim C8 -/

theorem boundSeq_congr {panels panels2 : List (String × List String)}
    (hp : panels2.map Prod.fst = panels.map Prod.fst) (bs : List Button) :
    boundSeq panels2 bs = boundSeq panels bs := by
  unfold boundSeq
  induction bs with
  | nil => rfl
  | cons b t ih => simp [List.filterMap_cons, bindKey_congr_ids hp b, ih]

/-- A successful `init` in closed form, given a navigation element and a
non-empty loop result. -/
theorem init_fresh_success {navs : List TElem} {btns : List Button}
    {panels : List (String × List String)} {s : TabsState} {tn : TElem}
    (hnav : oor s.tnav (find_tnav s.cfg.name navs) = some tn)
    (hne : (initPair btns panels s).1 ≠ []) :
    init navs btns panels s = (true, { s with
      tnav := some { tn with hasSet := true }
      tabs := initTabsFinal s.cfg (initPair btns panels s)
      curr := (initPair btns panels s).2 }) := by
  unfold init
  rw [hnav]
  dsimp only
  rw [if_neg (fun hIs => hne (List.isEmpty_iff.mp hIs))]

/-- C8: after a successful `init` from a fresh instance, `kill` leaves the
options and the URL untouched, empties the tabs map, clears the current
key, and removes only the claimed marker from the retained navigation
element; a subsequent `init` on the same instance (with any document whose
panel ids are unchanged) succeeds again and binds exactly the same keys,
with the same options and the same active key. -/
theorem c8_kill_then_init (navs navs2 : List TElem) (btns : List Button)
    (panels panels2 : List (String × List String)) (s0 s1 : TabsState)
    (ht : s0.tabs = []) (hc : s0.curr = none)
    (h : init navs btns panels s0 = (true, s1))
    (hp : panels2.map Prod.fst = panels.map Prod.fst) :
    (kill s1).cfg = s1.cfg ∧ (kill s1).url = s1.url ∧
    (kill s1).tabs = [] ∧ (kill s1).curr = none ∧
    (∃ tn, s1.tnav = some tn ∧ (kill s1).tnav = some { tn with hasSet := false }) ∧
    ∃ s3, init navs2 btns panels2 (kill s1) = (true, s3) ∧
      s3.tabs.map Prod.fst = s1.tabs.map Prod.fst ∧
      s3.cfg = s1.cfg ∧ s3.curr = s1.curr := by
  obtain ⟨tn, hnav, hne, hs1⟩ := init_true_elim h
  have hfst1 : (initPair btns panels s0).1.map Prod.fst
      = (boundSeq panels btns).foldl upsertKey [] := by
    unfold initPair
    rw [foldl_initStep_fst, ht]
    rfl
  have hsnd1 : (initPair btns panels s0).2
      = (boundSeq panels btns).foldl
          (selStep (frags s0.cfg.frag_sep (frag s0.url))) none := by
    unfold initPair
    rw [foldl_initStep_snd, hc]
  have hfst2 : (initPair btns panels2 (kill s1)).1.map Prod.fst
      = (boundSeq panels btns).foldl upsertKey [] := by
    unfold initPair
    rw [foldl_initStep_fst, boundSeq_congr hp]
    rfl
  have hsnd2 : (initPair btns panels2 (kill s1)).2
      = (boundSeq panels btns).foldl
          (selStep (frags (kill s1).cfg.frag_sep (frag (kill s1).url))) none := by
    unfold initPair
    rw [foldl_initStep_snd, boundSeq_congr hp]
    rfl
  have hnav2 : oor (kill s1).tnav (find_tnav (kill s1).cfg.name navs2)
      = some ⟨tn.attrVal, false⟩ := by
    rw [hs1]
    rfl
  have hne2 : (initPair btns panels2 (kill s1)).1 ≠ [] := by
    intro hnil
    apply hne
    have h2 := congrArg (List.map Prod.fst) hnil
    rw [hfst2] at h2
    have h3 : (initPair btns panels s0).1.map Prod.fst = [] := by
      rw [hfst1, h2]
      rfl
    exact List.map_eq_nil_iff.mp h3
  have happly := init_fresh_success hnav2 hne2
  refine ⟨rfl, rfl, rfl, rfl, ⟨⟨tn.attrVal, true⟩, by rw [hs1], by rw [hs1]; rfl⟩,
    _, happly, ?_, rfl, ?_⟩
  · have key : (initPair btns panels2 (kill s1)).1.map Prod.fst
        = s1.tabs.map Prod.fst := by
      rw [hfst2, ← hfst1, hs1]
      exact (map_fst_initTabsFinal s0.cfg (initPair btns panels s0)).symm
    exact (map_fst_initTabsFinal (kill s1).cfg
      (initPair btns panels2 (kill s1))).trans key
  · have keyc : (initPair btns panels2 (kill s1)).2 = s1.curr := by
      rw [hsnd2, hs1]
      exact hsnd1.symm
    exact keyc

theorem c8_kill_then_init_witness :
    init navsW btnsW panelsW initW0 = (true, (init navsW btnsW panelsW initW0).2) ∧
    ((kill (init navsW btnsW panelsW initW0).2).cfg
        = (init navsW btnsW panelsW initW0).2.cfg ∧
      (kill (init navsW btnsW panelsW initW0).2).url
        = (init navsW btnsW panelsW initW0).2.url ∧
      (kill (init navsW btnsW panelsW initW0).2).tabs = [] ∧
      (kill (init navsW btnsW panelsW initW0).2).curr = none ∧
      (∃ tn, (init navsW btnsW panelsW initW0).2.tnav = some tn ∧
        (kill (init navsW btnsW panelsW initW0).2).tnav
          = some { tn with hasSet := false }) ∧
      ∃ s3, init navsW btnsW panelsW (kill (init navsW btnsW panelsW initW0).2)
          = (true, s3) ∧
        s3.tabs.map Prod.fst = (init navsW btnsW panelsW initW0).2.tabs.map Prod.fst ∧
        s3.cfg = (init navsW btnsW panelsW initW0).2.cfg ∧
        s3.curr = (init navsW btnsW panelsW initW0).2.curr) :=
  ⟨by decide,
   c8_kill_then_init navsW navsW btnsW panelsW panelsW initW0 _ rfl rfl (by decide) rfl⟩

/-! ## Claim C1 -/

theorem str_append_assoc (a b c : String) : a ++ b ++ c = a ++ (b ++ c) :=
  str_ext (by rw [data_append, data_append, data_append, data_append,
    List.append_assoc])

/-- C1: decoding the URL produced by `update_frags` on a URL whose fragment
encodes the sub-key list `l` yields `l` with the (first) position of the
previous active key `prev` overwritten by the new key `next`, every other
sub-key staying at its original position.  The sub-keys and the new key are
well-formed fragment sub-keys: non-empty and free of the separator and of
`#`. -/
theorem c1_update_frags_roundtrip (cfg : Config) (base prev next : String)
    (l : List String)
    (hset : cfg.set_frags = true)
    (hsep : cfg.frag_sep ≠ '#')
    (hbase : '#' ∉ base.data)
    (hl : ∀ x ∈ l, x ≠ "" ∧ cfg.frag_sep ∉ x.data ∧ '#' ∉ x.data)
    (hnext : next ≠ "" ∧ cfg.frag_sep ∉ next.data ∧ '#' ∉ next.data)
    (hprev : prev ∈ l) :
    ∃ i, l.findIdx? (· = prev) = some i ∧
      frags cfg.frag_sep (frag (update_frags cfg (some prev)
        (base ++ "#" ++ jsJoin cfg.frag_sep l) next)) = l.set i next := by
  have hnotsep : ('#' : Char) ≠ cfg.frag_sep := fun hh => hsep hh.symm
  have hJdata : '#' ∉ (jsJoin cfg.frag_sep l).data := by
    show '#' ∉ joinChar cfg.frag_sep (l.map String.data)
    refine not_mem_joinChar hnotsep _ ?_
    intro y hy
    rcases List.mem_map.mp hy with ⟨z, hz, rfl⟩
    exact (hl z hz).2.2
  have hlne : l ≠ [] := fun hnil => by simp [hnil] at hprev
  have hfrag : frag (base ++ "#" ++ jsJoin cfg.frag_sep l) = jsJoin cfg.frag_sep l :=
    frag_of_append hbase hJdata
  have hdec : frags cfg.frag_sep (jsJoin cfg.frag_sep l) = l :=
    frags_of_join (fun x hx => ⟨(hl x hx).1, (hl x hx).2.1⟩) hlne
  obtain ⟨i, hi⟩ := Option.isSome_iff_exists.mp (findIdx?_isSome_of_mem hprev)
  refine ⟨i, hi, ?_⟩
  unfold update_frags
  rw [if_neg (by simp [hset])]
  dsimp only
  rw [hfrag, hdec]
  have hupd : update_frags_list l (some prev) next = l.set i next := by
    unfold update_frags_list
    dsimp only
    rw [hi]
  rw [hupd]
  have hrep : replaceFrag (base ++ "#" ++ jsJoin cfg.frag_sep l)
      ("#" ++ jsJoin cfg.frag_sep (l.set i next))
      = base ++ "#" ++ jsJoin cfg.frag_sep (l.set i next) := by
    unfold replaceFrag
    rw [splitChar_fst_of_append_hash _ _ hbase, mk_data]
    exact (str_append_assoc base "#" _).symm
  rw [hrep]
  have hl2 : ∀ x ∈ l.set i next, x ≠ "" ∧ cfg.frag_sep ∉ x.data ∧ '#' ∉ x.data := by
    intro x hx
    rcases mem_of_mem_set hx with hx2 | rfl
    · exact hl x hx2
    · exact hnext
  have hJ2 : '#' ∉ (jsJoin cfg.frag_sep (l.set i next)).data := by
    show '#' ∉ joinChar cfg.frag_sep ((l.set i next).map String.data)
    refine not_mem_joinChar hnotsep _ ?_
    intro y hy
    rcases List.mem_map.mp hy with ⟨z, hz, rfl⟩
    exact (hl2 z hz).2.2
  rw [frag_of_append hbase hJ2]
  exact frags_of_join (fun x hx => ⟨(hl2 x hx).1, (hl2 x hx).2.1⟩)
    (set_ne_nil hlne i next)

theorem c1_update_frags_roundtrip_witness :
    cfgW.set_frags = true ∧ cfgW.frag_sep ≠ '#' ∧ "a" ∈ ["a", "b"] ∧
    (∃ i, ["a", "b"].findIdx? (· = "a") = some i ∧
      frags cfgW.frag_sep (frag (update_frags cfgW (some "a")
        ("http://x" ++ "#" ++ jsJoin cfgW.frag_sep ["a", "b"]) "c"))
        = ["a", "b"].set i "c") ∧
    frag (update_frags cfgW (some "a") "http://x#a:b" "c") = "c:b" :=
  ⟨rfl, by decide, by decide,
   c1_update_frags_roundtrip cfgW "http://x" "a" "c" ["a", "b"] rfl (by decide)
     (by decide) (by decide) (by decide) (by decide),
   by decide⟩
